import Mathlib

/-!
Verification development for a small employee/attendance record-keeping API
(FastAPI + SQLAlchemy). The embedding below translates the data model
(`app/models.py`, `app/schemas.py`) and the request handlers
(`app/routers/employees.py`, `app/routers/attendance.py`) into pure Lean
functions over an explicit store state.

Conventions of the embedding:
* Calendar dates are represented as `Nat` (a day number); the code only
  compares dates with `==`, `>=`, `<=`, which this preserves.
* The relational store is a pair of lists (`employees`, `attendance`) plus
  auto-increment counters for the surrogate `id` columns.
* Handlers that write take TWO store arguments: the store snapshot read by
  the pre-checks (`stq`) and the store at insert/commit time (`stc`).
  Sequential execution passes the same store twice; passing different
  stores models a race between the check and the insert, in which the
  store's own constraints (unique indexes, foreign key) raise an
  `IntegrityError` at commit time. Every failure path returns the
  commit-time store unchanged (`db.rollback()` / no write attempted).
-/

/-- models.py `Employee` row: surrogate `id` plus the four business fields. -/
structure Employee where
  id : Nat
  employee_id : String
  full_name : String
  email : String
  department : String
  deriving DecidableEq, Repr

/-- models.py `Attendance` row. -/
structure Attendance where
  id : Nat
  employee_id : String
  date : Nat
  is_present : Bool
  deriving DecidableEq, Repr

/-- The relational store: the two tables plus the auto-increment counters. -/
structure Store where
  employees : List Employee
  attendance : List Attendance
  nextEmployeeId : Nat
  nextAttendanceId : Nat
  deriving DecidableEq, Repr

/-- A fresh database (`Base.metadata.create_all`): both tables empty. -/
def emptyStore : Store := ⟨[], [], 1, 1⟩

/-- The error taxonomy of the API: 404 Not Found, 409 Conflict,
400/422 validation-style failures (`HTTPException` status codes). -/
inductive ApiError where
  | notFound (detail : String)
  | conflict (detail : String)
  | validation (detail : String)
  deriving DecidableEq, Repr

/-- The kind of an `ApiError`, ignoring the human-readable detail. -/
inductive ErrKind where
  | notFound
  | conflict
  | validation
  deriving DecidableEq, Repr

/-- Kind of an `ApiError`. -/
def ApiError.kind : ApiError → ErrKind
  | .notFound _ => .notFound
  | .conflict _ => .conflict
  | .validation _ => .validation

instance {α β : Type} [DecidableEq α] [DecidableEq β] : DecidableEq (Except α β) := fun x y =>
  match x, y with
  | .error a, .error b => if h : a = b then .isTrue (by rw [h]) else .isFalse (by simp [h])
  | .ok a, .ok b => if h : a = b then .isTrue (by rw [h]) else .isFalse (by simp [h])
  | .error _, .ok _ => .isFalse (by simp)
  | .ok _, .error _ => .isFalse (by simp)

/-- The error kind of a handler result, `none` on success. -/
def errKind {α : Type} : Except ApiError α → Option ErrKind
  | .error e => some e.kind
  | .ok _ => none

/-- schemas.py `EmployeeCreate` request body. -/
structure EmployeeCreate where
  employee_id : String
  full_name : String
  email : String
  department : String
  deriving DecidableEq, Repr

/-- schemas.py `AttendanceCreate` request body. -/
structure AttendanceCreate where
  employee_id : String
  date : Nat
  is_present : Bool
  deriving DecidableEq, Repr

/-- schemas.py `AttendanceResponse`. -/
structure AttendanceResponse where
  id : Nat
  employee_id : String
  date : Nat
  is_present : Bool
  deriving DecidableEq, Repr

/-- schemas.py `AttendanceSummary`. -/
structure AttendanceSummary where
  employee_id : String
  full_name : String
  total_present_days : Nat
  total_absent_days : Nat
  deriving DecidableEq, Repr

/-- Modelled from the spec: pydantic's `EmailStr` delegates to the external
`email-validator` library, which is not part of this repository; the spec
requires "valid email syntax". Modelled as: exactly one `@` separating a
non-empty local part from a non-empty domain that contains a dot. -/
def isValidEmail (s : String) : Bool :=
  let cs := s.toList
  let lp := cs.takeWhile (fun c => c != '@')
  match cs.dropWhile (fun c => c != '@') with
  | '@' :: dp => !lp.isEmpty && !dp.isEmpty && dp.contains '.' && !dp.contains '@'
  | _ => false

/-- schemas.py `EmployeeBase` field constraints: `employee_id` 1–50 chars,
`full_name` 1–100 chars, `email` a valid email, `department` 1–100 chars.
FastAPI applies these to the request body before the handler runs. -/
def validEmployeeCreate (e : EmployeeCreate) : Bool :=
  1 ≤ e.employee_id.length && e.employee_id.length ≤ 50 &&
  (1 ≤ e.full_name.length && e.full_name.length ≤ 100) &&
  isValidEmail e.email &&
  (1 ≤ e.department.length && e.department.length ≤ 100)

/-- schemas.py `AttendanceBase` field constraints: `employee_id` 1–50 chars;
`date` and `is_present` are already well-typed. -/
def validAttendanceCreate (a : AttendanceCreate) : Bool :=
  1 ≤ a.employee_id.length && a.employee_id.length ≤ 50

/-- models.py constraints on the `employees` table: `employee_id` and
`email` each carry `unique=True`. Inserting a row whose `employee_id` or
`email` is already present raises `IntegrityError` at commit time. -/
def employeeInsertViolation (st : Store) (e : EmployeeCreate) : Bool :=
  st.employees.any (fun x => x.employee_id == e.employee_id || x.email == e.email)

/-- models.py constraints on the `attendance` table:
`UniqueConstraint("employee_id", "date")` and the foreign key
`employee_id → employees.employee_id`. Inserting a row that duplicates an
existing (employee_id, date) pair, or whose employee_id references no
employee row, raises `IntegrityError` at commit time. -/
def attendanceInsertViolation (st : Store) (a : AttendanceCreate) : Bool :=
  st.attendance.any (fun x => x.employee_id == a.employee_id && x.date == a.date) ||
  !(st.employees.any (fun x => x.employee_id == a.employee_id))

/-- routers/employees.py `create_employee` (lines 18–62): pre-check the two
uniqueness rules with explicit queries (409 Conflict), then insert and
commit; a commit-time `IntegrityError` is mapped to 400 "Invalid data
provided". `stq` is the store read by the pre-checks, `stc` the store at
commit time (equal under sequential execution). -/
def create_employee (stq stc : Store) (e : EmployeeCreate) :
    Except ApiError Employee × Store :=
  if (stq.employees.find? (fun x => x.employee_id == e.employee_id)).isSome then
    (.error (.conflict "Employee ID already exists"), stc)
  else if (stq.employees.find? (fun x => x.email == e.email)).isSome then
    (.error (.conflict "Email already exists"), stc)
  else if employeeInsertViolation stc e then
    (.error (.validation "Invalid data provided"), stc)
  else
    let emp : Employee :=
      ⟨stc.nextEmployeeId, e.employee_id, e.full_name, e.email, e.department⟩
    (.ok emp,
     { stc with
        employees := stc.employees ++ [emp],
        nextEmployeeId := stc.nextEmployeeId + 1 })

/-- `POST /api/employees` endpoint under sequential execution: FastAPI
validates the body against `EmployeeBase` before `create_employee` runs. -/
def createEmployeeApi (st : Store) (e : EmployeeCreate) :
    Except ApiError Employee × Store :=
  if validEmployeeCreate e then create_employee st st e
  else (.error (.validation "request body failed schema validation"), st)

/-- routers/employees.py `list_employees` (lines 64–67). -/
def list_employees (st : Store) : List Employee :=
  st.employees

/-- routers/employees.py `get_employee` (lines 69–80). -/
def get_employee (st : Store) (employee_id : String) : Except ApiError Employee :=
  match st.employees.find? (fun x => x.employee_id == employee_id) with
  | none => .error (.notFound ("Employee with ID " ++ employee_id ++ " not found"))
  | some e => .ok e

/-- routers/employees.py `delete_employee` (lines 82–98): 404 if absent;
otherwise `db.delete(employee)` removes that row and — via the ORM cascade
`"all, delete-orphan"` and the FK `ondelete="CASCADE"` — every attendance
row whose `employee_id` equals it. -/
def delete_employee (st : Store) (employee_id : String) :
    Except ApiError Unit × Store :=
  match st.employees.find? (fun x => x.employee_id == employee_id) with
  | none =>
    (.error (.notFound ("Employee with ID " ++ employee_id ++ " not found")), st)
  | some _ =>
    (.ok (),
     { st with
        employees := st.employees.eraseP (fun x => x.employee_id == employee_id),
        attendance := st.attendance.filter (fun a => !(a.employee_id == employee_id)) })

/-- Serialization of an attendance row into `AttendanceResponse`. -/
def toResponse (a : Attendance) : AttendanceResponse :=
  ⟨a.id, a.employee_id, a.date, a.is_present⟩

/-- The ordering relation of `Attendance.date.desc()`: later dates first. -/
def dateDesc (a b : Attendance) : Prop := b.date ≤ a.date

instance : DecidableRel dateDesc := fun a b => Nat.decLe b.date a.date

instance : IsTotal Attendance dateDesc := ⟨fun a b => Nat.le_total b.date a.date⟩

instance : IsTrans Attendance dateDesc := ⟨fun _ _ _ h1 h2 => Nat.le_trans h2 h1⟩

/-- `query.order_by(Attendance.date.desc())`: a concrete sorted-descending
permutation of the row set (SQL guarantees order only on `date`). -/
def orderByDateDesc (l : List Attendance) : List Attendance :=
  l.insertionSort dateDesc

/-- The same descending-date relation on serialized responses. -/
def respDateDesc (a b : AttendanceResponse) : Prop := b.date ≤ a.date

/-- routers/employees.py `get_employee_attendance` (lines 100–133): 404 if
the employee is absent; otherwise filter that employee's rows, then apply
each supplied bound (`if start_date:` / `if end_date:` — a Python `date`
object is always truthy, so only `None` skips a bound), order by date
descending, serialize. -/
def get_employee_attendance (st : Store) (employee_id : String)
    (start_date end_date : Option Nat) : Except ApiError (List AttendanceResponse) :=
  if (st.employees.find? (fun x => x.employee_id == employee_id)).isNone then
    .error (.notFound ("Employee with ID " ++ employee_id ++ " not found"))
  else
    let q1 := st.attendance.filter (fun a => a.employee_id == employee_id)
    let q2 := match start_date with
      | some s => q1.filter (fun a => s ≤ a.date)
      | none => q1
    let q3 := match end_date with
      | some e => q2.filter (fun a => a.date ≤ e)
      | none => q2
    .ok ((orderByDateDesc q3).map toResponse)

/-- routers/employees.py `get_attendance_summary` (lines 135–176): 404 if
the employee is absent; otherwise count that employee's rows with
`is_present` true and false independently (`COUNT` never returns NULL, and
`or 0` maps 0 to 0). -/
def get_attendance_summary (st : Store) (employee_id : String) :
    Except ApiError AttendanceSummary :=
  match st.employees.find? (fun x => x.employee_id == employee_id) with
  | none => .error (.notFound ("Employee with ID " ++ employee_id ++ " not found"))
  | some emp =>
    let present_count :=
      st.attendance.countP (fun a => a.employee_id == employee_id && a.is_present == true)
    let absent_count :=
      st.attendance.countP (fun a => a.employee_id == employee_id && a.is_present == false)
    .ok ⟨emp.employee_id, emp.full_name, present_count, absent_count⟩

/-- routers/attendance.py `mark_attendance` (lines 13–75): 404 if the
employee is absent; 409 if a row for the (employee_id, date) pair is found
by the explicit pre-check; then insert and commit — a commit-time
`IntegrityError` (duplicate pair or broken FK in the commit-time store) is
caught and mapped to 409 Conflict. `stq` is the store read by the
pre-checks, `stc` the store at commit time. -/
def mark_attendance (stq stc : Store) (a : AttendanceCreate) :
    Except ApiError AttendanceResponse × Store :=
  if (stq.employees.find? (fun x => x.employee_id == a.employee_id)).isNone then
    (.error (.notFound ("Employee with ID " ++ a.employee_id ++ " not found")), stc)
  else if (stq.attendance.find?
      (fun x => x.employee_id == a.employee_id && x.date == a.date)).isSome then
    (.error (.conflict ("Attendance for employee " ++ a.employee_id ++
      " on that date already exists")), stc)
  else if attendanceInsertViolation stc a then
    (.error (.conflict "Attendance record already exists for this employee and date"), stc)
  else
    let row : Attendance := ⟨stc.nextAttendanceId, a.employee_id, a.date, a.is_present⟩
    (.ok (toResponse row),
     { stc with
        attendance := stc.attendance ++ [row],
        nextAttendanceId := stc.nextAttendanceId + 1 })

/-- `mark_attendance` under sequential execution (same store for check and
commit). -/
def markAttendance (st : Store) (a : AttendanceCreate) :
    Except ApiError AttendanceResponse × Store :=
  mark_attendance st st a

/-- `POST /api/attendance` endpoint under sequential execution: FastAPI
validates the body against `AttendanceBase` before the handler runs. -/
def markAttendanceApi (st : Store) (a : AttendanceCreate) :
    Except ApiError AttendanceResponse × Store :=
  if validAttendanceCreate a then mark_attendance st st a
  else (.error (.validation "request body failed schema validation"), st)

/-- routers/attendance.py `list_attendance` (lines 77–102): no employee
existence check; each filter is applied under Python truthiness
(`if date:` — a `date` object is always truthy; `if employee_id:` — the
empty string is falsy, so an empty-string filter is skipped), then order by
date descending and serialize. -/
def list_attendance (st : Store) (date : Option Nat) (employee_id : Option String) :
    List AttendanceResponse :=
  let q1 := match date with
    | some d => st.attendance.filter (fun a => a.date == d)
    | none => st.attendance
  let q2 := match employee_id with
    | some eid => if eid.isEmpty then q1 else q1.filter (fun a => a.employee_id == eid)
    | none => q1
  (orderByDateDesc q2).map toResponse

/-- The exact-match filter semantics in the spec's words for
`list_attendance`: keep a record iff its fields equal every filter that was
supplied. Used to compare the implementation against the spec. -/
def listAttendanceSpec (st : Store) (date : Option Nat) (employee_id : Option String) :
    List Attendance :=
  st.attendance.filter (fun a =>
    (date.all (fun d => a.date == d)) && (employee_id.all (fun e => a.employee_id == e)))

/-- The spec's date-range test for an employee's attendance listing: each
bound, when supplied, applies independently and inclusively. -/
def withinBounds (start_date end_date : Option Nat) (d : Nat) : Bool :=
  (start_date.all (fun s => decide (s ≤ d))) && (end_date.all (fun e => decide (d ≤ e)))

/-- One API-level mutating request. -/
inductive Op where
  | createEmp (e : EmployeeCreate)
  | deleteEmp (employee_id : String)
  | mark (a : AttendanceCreate)
  deriving Repr

/-- The store after serving one request (failed requests leave it as is). -/
def applyOp (st : Store) : Op → Store
  | .createEmp e => (createEmployeeApi st e).2
  | .deleteEmp eid => (delete_employee st eid).2
  | .mark a => (markAttendanceApi st a).2

/-- The store after serving a sequence of requests against a fresh database. -/
def runOps (ops : List Op) : Store :=
  ops.foldl applyOp emptyStore

/-- No two employee rows share an `employee_id`. -/
@[reducible] def EmployeeIdsUnique (st : Store) : Prop :=
  (st.employees.map Employee.employee_id).Nodup

/-- No two employee rows share an `email`. -/
@[reducible] def EmailsUnique (st : Store) : Prop :=
  (st.employees.map Employee.email).Nodup

/-- No two attendance rows share the same (employee_id, date) pair. -/
@[reducible] def AttendancePairsUnique (st : Store) : Prop :=
  (st.attendance.map (fun a => (a.employee_id, a.date))).Nodup

/-- Every attendance row's `employee_id` references an employee row. -/
@[reducible] def RefIntegrity (st : Store) : Prop :=
  ∀ a ∈ st.attendance, ∃ e ∈ st.employees, e.employee_id = a.employee_id

/-- The integrity invariant of the schema. -/
@[reducible] def Invariant (st : Store) : Prop :=
  EmployeeIdsUnique st ∧ EmailsUnique st ∧ AttendancePairsUnique st ∧ RefIntegrity st

/-- Fixture: one employee row. -/
def empAlice : Employee := ⟨1, "E001", "Alice", "alice@x.com", "Eng"⟩

/-- Fixture: one attendance row for `empAlice` on day 5. -/
def attAlice : Attendance := ⟨1, "E001", 5, true⟩

/-- Fixture: a store holding only `empAlice`. -/
def stAlice : Store := ⟨[empAlice], [], 2, 1⟩

/-- Fixture: a store holding `empAlice` and `attAlice`. -/
def stAliceAtt : Store := ⟨[empAlice], [attAlice], 2, 2⟩

/-- Fixture: a create request reusing `empAlice`'s employee_id. -/
def reqBob : EmployeeCreate := ⟨"E001", "Bob", "bob@x.com", "Eng"⟩

/-- Splitting a count over a boolean sub-predicate. -/
theorem countP_and_split {α : Type} (p q : α → Bool) (l : List α) :
    l.countP (fun a => p a && q a) + l.countP (fun a => p a && !q a) = l.countP p := by
  induction l with
  | nil => simp
  | cons x xs ih =>
    simp only [List.countP_cons]
    cases hp : p x <;> cases hq : q x <;> simp [hp, hq] <;> omega

/-- A query whose predicate rejects every row finds nothing. -/
theorem find?_of_forall_ne {β : Type} (l : List β) (p : β → Bool)
    (h : ∀ x ∈ l, p x = false) : l.find? p = none :=
  List.find?_eq_none.mpr (fun x hx => by simp [h x hx])

theorem forall_false_of_any_eq_false {β : Type} {l : List β} {p : β → Bool}
    (h : l.any p = false) : ∀ x ∈ l, p x = false := by
  intro x hx
  have := List.any_eq_false.mp h x hx
  revert this
  cases p x <;> simp

theorem forall_false_of_find?_not_isSome {β : Type} {l : List β} {p : β → Bool}
    (h : ¬ (l.find? p).isSome = true) : ∀ x ∈ l, p x = false := by
  intro x hx
  cases hpx : p x
  · rfl
  · exact absurd (List.find?_isSome.mpr ⟨x, hx, hpx⟩) h

theorem exists_of_find?_not_isNone {β : Type} {l : List β} {p : β → Bool}
    (h : ¬ (l.find? p).isNone = true) : ∃ x ∈ l, p x = true := by
  cases hf : l.find? p with
  | none => rw [hf] at h; exact absurd rfl h
  | some v =>
    refine List.find?_isSome.mp ?_
    rw [hf]
    rfl

/-- An element not matching the erased predicate survives `eraseP`. -/
theorem mem_eraseP_of_neg {β : Type} {l : List β} {p : β → Bool} {x : β}
    (hx : x ∈ l) (hpx : p x = false) : x ∈ l.eraseP p := by
  induction l with
  | nil => cases hx
  | cons y ys ih =>
    rw [List.eraseP_cons]
    cases hy : p y with
    | false =>
      simp only [cond_false]
      rcases List.mem_cons.mp hx with rfl | hmem
      · exact List.mem_cons_self _ _
      · exact List.mem_cons_of_mem _ (ih hmem)
    | true =>
      simp only [cond_true]
      rcases List.mem_cons.mp hx with rfl | hmem
      · rw [hpx] at hy
        exact absurd hy (by simp)
      · exact hmem

/-- Erasing the employee with a given employee_id from a duplicate-free
roster leaves no row with that employee_id. -/
theorem find?_eraseP_none (l : List Employee) (k : String)
    (h : (l.map Employee.employee_id).Nodup) :
    (l.eraseP (fun x => x.employee_id == k)).find? (fun x => x.employee_id == k) = none := by
  induction l with
  | nil => rfl
  | cons x xs ih =>
    simp only [List.map_cons, List.nodup_cons] at h
    rw [List.eraseP_cons]
    cases hx : x.employee_id == k with
    | false =>
      simp only [cond_false]
      rw [List.find?_cons_of_neg _ (by simp [hx]), ih h.2]
    | true =>
      simp only [cond_true]
      rw [List.find?_eq_none]
      intro y hy hpy
      apply h.1
      have hyk : y.employee_id = k := by simpa using hpy
      have hxk : x.employee_id = k := by simpa using hx
      rw [hxk, ← hyk]
      exact List.mem_map_of_mem _ hy

/-- Ordering a row set then serializing permutes the serialized row set. -/
theorem orderBy_map_perm (l : List Attendance) :
    ((orderByDateDesc l).map toResponse).Perm (l.map toResponse) :=
  (List.perm_insertionSort dateDesc l).map toResponse

/-- Ordering then serializing yields a date-descending response list. -/
theorem orderBy_map_sorted (l : List Attendance) :
    List.Sorted respDateDesc ((orderByDateDesc l).map toResponse) :=
  List.Pairwise.map toResponse (fun _ _ h => h) (List.sorted_insertionSort dateDesc l)

/-- Serving any single request preserves the schema's integrity invariant. -/
theorem invariant_applyOp (st : Store) (op : Op) (h : Invariant st) :
    Invariant (applyOp st op) := by
  obtain ⟨hid, hem, hpair, href⟩ := h
  cases op with
  | createEmp e =>
    show Invariant (createEmployeeApi st e).2
    unfold createEmployeeApi create_employee
    split
    · split
      · exact ⟨hid, hem, hpair, href⟩
      · split
        · exact ⟨hid, hem, hpair, href⟩
        · split
          · exact ⟨hid, hem, hpair, href⟩
          · rename_i hvalid hf1 hf2 hviol
            have hf1' := forall_false_of_find?_not_isSome hf1
            have hf2' := forall_false_of_find?_not_isSome hf2
            refine ⟨?_, ?_, hpair, ?_⟩
            · show ((st.employees ++
                [(⟨st.nextEmployeeId, e.employee_id, e.full_name, e.email,
                  e.department⟩ : Employee)]).map Employee.employee_id).Nodup
              rw [List.map_append, List.nodup_append]
              refine ⟨hid, by simp, ?_⟩
              intro v hv hv2
              simp only [List.map_cons, List.map_nil, List.mem_singleton] at hv2
              obtain ⟨x, hx, hxv⟩ := List.mem_map.mp hv
              have := hf1' x hx
              rw [hxv, hv2] at this
              simp at this
            · show ((st.employees ++
                [(⟨st.nextEmployeeId, e.employee_id, e.full_name, e.email,
                  e.department⟩ : Employee)]).map Employee.email).Nodup
              rw [List.map_append, List.nodup_append]
              refine ⟨hem, by simp, ?_⟩
              intro v hv hv2
              simp only [List.map_cons, List.map_nil, List.mem_singleton] at hv2
              obtain ⟨x, hx, hxv⟩ := List.mem_map.mp hv
              have := hf2' x hx
              rw [hxv, hv2] at this
              simp at this
            · intro a ha
              obtain ⟨x, hx, hxe⟩ := href a ha
              exact ⟨x, List.mem_append_left _ hx, hxe⟩
    · exact ⟨hid, hem, hpair, href⟩
  | deleteEmp k =>
    show Invariant (delete_employee st k).2
    unfold delete_employee
    split
    · exact ⟨hid, hem, hpair, href⟩
    · refine ⟨?_, ?_, ?_, ?_⟩
      · exact List.Nodup.sublist
          (List.Sublist.map _ (List.eraseP_sublist _)) hid
      · exact List.Nodup.sublist
          (List.Sublist.map _ (List.eraseP_sublist _)) hem
      · exact List.Nodup.sublist
          (List.Sublist.map _ (List.filter_sublist _)) hpair
      · intro a ha
        rw [List.mem_filter] at ha
        obtain ⟨ha1, ha2⟩ := ha
        obtain ⟨x, hx, hxe⟩ := href a ha1
        refine ⟨x, mem_eraseP_of_neg hx ?_, hxe⟩
        rw [hxe]
        revert ha2
        cases hak : (a.employee_id == k) <;> simp
  | mark a =>
    show Invariant (markAttendanceApi st a).2
    unfold markAttendanceApi mark_attendance
    split
    · split
      · exact ⟨hid, hem, hpair, href⟩
      · split
        · exact ⟨hid, hem, hpair, href⟩
        · split
          · exact ⟨hid, hem, hpair, href⟩
          · rename_i hvalid hf0 hf1 hviol
            have hf1' := forall_false_of_find?_not_isSome hf1
            obtain ⟨x0, hx0, hx0e⟩ := exists_of_find?_not_isNone hf0
            refine ⟨hid, hem, ?_, ?_⟩
            · show ((st.attendance ++
                [(⟨st.nextAttendanceId, a.employee_id, a.date, a.is_present⟩ : Attendance)]).map
                  (fun r : Attendance => (r.employee_id, r.date))).Nodup
              rw [List.map_append, List.nodup_append]
              refine ⟨hpair, by simp, ?_⟩
              intro v hv hv2
              simp only [List.map_cons, List.map_nil, List.mem_singleton] at hv2
              obtain ⟨x, hx, hxv⟩ := List.mem_map.mp hv
              have := hf1' x hx
              rw [hv2] at hxv
              have hxe : x.employee_id = a.employee_id := congrArg Prod.fst hxv
              have hxd : x.date = a.date := congrArg Prod.snd hxv
              rw [hxe, hxd] at this
              simp at this
            · intro r hr
              rcases List.mem_append.mp hr with hold | hnew
              · exact href r hold
              · simp only [List.mem_singleton] at hnew
                subst hnew
                exact ⟨x0, hx0, by simpa using hx0e⟩
    · exact ⟨hid, hem, hpair, href⟩

/-- Folding any request sequence over an invariant state keeps it. -/
theorem foldl_applyOp_invariant (ops : List Op) :
    ∀ st, Invariant st → Invariant (ops.foldl applyOp st) := by
  induction ops with
  | nil => exact fun st h => h
  | cons o os ih => exact fun st h => ih _ (invariant_applyOp st o h)

/-- Claim C1: for every markAttendance request made in a state whose roster
contains the requested employee, if an attendance record with the same
(employee_id, date) pair already exists — in the store snapshot seen by the
explicit pre-check, or only in the store at insert time (a race) — the
operation fails with Conflict, regardless of the is_present value of the
request or of the existing record. -/
theorem mark_attendance_duplicate_conflict (stq stc : Store) (a : AttendanceCreate)
    (hemp : ∃ e ∈ stq.employees, e.employee_id = a.employee_id) :
    ((∃ x ∈ stq.attendance, x.employee_id = a.employee_id ∧ x.date = a.date) →
      errKind (mark_attendance stq stc a).1 = some .conflict) ∧
    ((∃ x ∈ stc.attendance, x.employee_id = a.employee_id ∧ x.date = a.date) →
      errKind (mark_attendance stq stc a).1 = some .conflict) := by
  obtain ⟨e, he, heq⟩ := hemp
  have hsome : (stq.employees.find? (fun x => x.employee_id == a.employee_id)).isSome = true :=
    List.find?_isSome.mpr ⟨e, he, by simp [heq]⟩
  have hfound : (stq.employees.find? (fun x => x.employee_id == a.employee_id)).isNone = false := by
    cases hf : stq.employees.find? (fun x => x.employee_id == a.employee_id) with
    | none => rw [hf] at hsome; simp at hsome
    | some v => rfl
  constructor
  · intro ⟨x, hx, hxe, hxd⟩
    have hpre : (stq.attendance.find?
        (fun x => x.employee_id == a.employee_id && x.date == a.date)).isSome = true :=
      List.find?_isSome.mpr ⟨x, hx, by simp [hxe, hxd]⟩
    simp [mark_attendance, hfound, hpre, errKind, ApiError.kind]
  · intro ⟨x, hx, hxe, hxd⟩
    have hviol : attendanceInsertViolation stc a = true := by
      simp only [attendanceInsertViolation, Bool.or_eq_true]
      exact Or.inl (List.any_eq_true.mpr ⟨x, hx, by simp [hxe, hxd]⟩)
    by_cases hpre : (stq.attendance.find?
        (fun x => x.employee_id == a.employee_id && x.date == a.date)).isSome = true
    · simp [mark_attendance, hfound, hpre, errKind, ApiError.kind]
    · simp only [Bool.not_eq_true] at hpre
      simp [mark_attendance, hfound, hpre, hviol, errKind, ApiError.kind]

/-- Witness for C1 at a concrete input: remarking day 5 for E001 with the
opposite is_present flag yields Conflict. -/
theorem mark_attendance_duplicate_conflict_witness :
    (∃ e ∈ stAliceAtt.employees, e.employee_id = ("E001" : String)) ∧
    errKind (mark_attendance stAliceAtt stAliceAtt ⟨"E001", 5, false⟩).1 = some .conflict := by
  refine ⟨by decide, ?_⟩
  exact (mark_attendance_duplicate_conflict stAliceAtt stAliceAtt ⟨"E001", 5, false⟩
    (by decide)).1 (by decide)

/-- Counterexample to C2 as stated: a duplicate that slips past the
pre-check (empty store at check time, duplicate employee_id at commit time)
triggers the store's uniqueness constraint, and create_employee surfaces it
as a Validation outcome (HTTP 400 "Invalid data provided"), not Conflict. -/
theorem create_employee_integrity_not_conflict :
    employeeInsertViolation stAlice reqBob = true ∧
    errKind (create_employee emptyStore stAlice reqBob).1 = some .validation ∧
    ¬ errKind (create_employee emptyStore stAlice reqBob).1 = some .conflict := by
  decide

/-- Claim C2 as amended: for every employee create request that passes both
pre-checks but hits the store's uniqueness constraint at commit time, the
operation surfaces a Validation outcome (HTTP 400, "Invalid data
provided"), a different failure kind from the pre-check's Conflict. -/
theorem create_employee_integrity_is_validation (stq stc : Store) (e : EmployeeCreate)
    (h1 : ∀ x ∈ stq.employees, x.employee_id ≠ e.employee_id)
    (h2 : ∀ x ∈ stq.employees, x.email ≠ e.email)
    (h3 : employeeInsertViolation stc e = true) :
    (create_employee stq stc e).1 = .error (.validation "Invalid data provided") := by
  have f1 : stq.employees.find? (fun x => x.employee_id == e.employee_id) = none :=
    find?_of_forall_ne _ _ (fun x hx => by simp [h1 x hx])
  have f2 : stq.employees.find? (fun x => x.email == e.email) = none :=
    find?_of_forall_ne _ _ (fun x hx => by simp [h2 x hx])
  simp [create_employee, f1, f2, h3]

/-- Witness for the amended C2 at a concrete input. -/
theorem create_employee_integrity_is_validation_witness :
    (create_employee emptyStore stAlice reqBob).1 = .error (.validation "Invalid data provided") :=
  create_employee_integrity_is_validation emptyStore stAlice reqBob
    (by decide) (by decide) (by decide)

/-- Counterexample to C3 as stated: a request whose employee_id already
exists but whose full_name is empty fails with Validation, not with the
Conflict that the claim requires for every duplicate-employee_id request;
FastAPI's schema validation runs before the handler's duplicate checks. -/
theorem createEmployee_validation_precedes_conflict :
    stAlice.employees.any (fun x => x.employee_id == "E001") = true ∧
    validEmployeeCreate ⟨"E001", "", "c@x.com", "Eng"⟩ = false ∧
    errKind (createEmployeeApi stAlice ⟨"E001", "", "c@x.com", "Eng"⟩).1 = some .validation ∧
    ¬ errKind (createEmployeeApi stAlice ⟨"E001", "", "c@x.com", "Eng"⟩).1 = some .conflict := by
  decide

/-- Claim C3 as amended: schema validation precedes the duplicate checks.
A request with any empty or malformed field fails with Validation (store
unchanged) even when duplicates exist; for a schema-valid request, a
duplicate employee_id fails with Conflict, else a duplicate email fails
with Conflict (store unchanged in both cases); otherwise exactly one new
employee is persisted and returned with its assigned surrogate id. -/
theorem createEmployeeApi_spec (st : Store) (e : EmployeeCreate) :
    (validEmployeeCreate e = false →
      errKind (createEmployeeApi st e).1 = some .validation ∧
      (createEmployeeApi st e).2 = st) ∧
    (validEmployeeCreate e = true →
      st.employees.any (fun x => x.employee_id == e.employee_id) = true →
      errKind (createEmployeeApi st e).1 = some .conflict ∧
      (createEmployeeApi st e).2 = st) ∧
    (validEmployeeCreate e = true →
      st.employees.any (fun x => x.employee_id == e.employee_id) = false →
      st.employees.any (fun x => x.email == e.email) = true →
      errKind (createEmployeeApi st e).1 = some .conflict ∧
      (createEmployeeApi st e).2 = st) ∧
    (validEmployeeCreate e = true →
      st.employees.any (fun x => x.employee_id == e.employee_id) = false →
      st.employees.any (fun x => x.email == e.email) = false →
      (createEmployeeApi st e).1 = .ok
        ⟨st.nextEmployeeId, e.employee_id, e.full_name, e.email, e.department⟩ ∧
      (createEmployeeApi st e).2.employees = st.employees ++
        [⟨st.nextEmployeeId, e.employee_id, e.full_name, e.email, e.department⟩] ∧
      (createEmployeeApi st e).2.attendance = st.attendance ∧
      (createEmployeeApi st e).2.employees.length = st.employees.length + 1) := by
  refine ⟨?_, ?_, ?_, ?_⟩
  · intro hv
    constructor
    · simp [createEmployeeApi, hv, errKind, ApiError.kind]
    · simp [createEmployeeApi, hv]
  · intro hv hdup
    obtain ⟨x, hx, hpx⟩ := List.any_eq_true.mp hdup
    have hsome : (st.employees.find? (fun x => x.employee_id == e.employee_id)).isSome = true :=
      List.find?_isSome.mpr ⟨x, hx, hpx⟩
    constructor
    · simp [createEmployeeApi, create_employee, hv, hsome, errKind, ApiError.kind]
    · simp [createEmployeeApi, create_employee, hv, hsome]
  · intro hv hid hem
    have hf1 : st.employees.find? (fun x => x.employee_id == e.employee_id) = none :=
      find?_of_forall_ne _ _ (forall_false_of_any_eq_false hid)
    obtain ⟨x, hx, hpx⟩ := List.any_eq_true.mp hem
    have hsome : (st.employees.find? (fun x => x.email == e.email)).isSome = true :=
      List.find?_isSome.mpr ⟨x, hx, hpx⟩
    constructor
    · simp [createEmployeeApi, create_employee, hv, hf1, hsome, errKind, ApiError.kind]
    · simp [createEmployeeApi, create_employee, hv, hf1, hsome]
  · intro hv hid hem
    have hf1 : st.employees.find? (fun x => x.employee_id == e.employee_id) = none :=
      find?_of_forall_ne _ _ (forall_false_of_any_eq_false hid)
    have hf2 : st.employees.find? (fun x => x.email == e.email) = none :=
      find?_of_forall_ne _ _ (forall_false_of_any_eq_false hem)
    have hid' := forall_false_of_any_eq_false hid
    have hem' := forall_false_of_any_eq_false hem
    have hviol : employeeInsertViolation st e = false := by
      unfold employeeInsertViolation
      rw [List.any_eq_false]
      intro x hx
      simp [hid' x hx, hem' x hx]
    refine ⟨?_, ?_, ?_, ?_⟩ <;>
      simp [createEmployeeApi, create_employee, hv, hf1, hf2, hviol]

/-- Witness for the amended C3: one concrete input through each branch. -/
theorem createEmployeeApi_spec_witness :
    errKind (createEmployeeApi stAlice ⟨"E001", "", "c@x.com", "Eng"⟩).1 = some .validation ∧
    errKind (createEmployeeApi stAlice ⟨"E001", "Bob", "bob@x.com", "Eng"⟩).1 = some .conflict ∧
    errKind (createEmployeeApi stAlice ⟨"E002", "Bob", "alice@x.com", "Eng"⟩).1 = some .conflict ∧
    (createEmployeeApi stAlice ⟨"E002", "Bob", "bob@x.com", "Eng"⟩).1 = .ok
      ⟨stAlice.nextEmployeeId, "E002", "Bob", "bob@x.com", "Eng"⟩ :=
  ⟨((createEmployeeApi_spec stAlice ⟨"E001", "", "c@x.com", "Eng"⟩).1 (by decide)).1,
   ((createEmployeeApi_spec stAlice ⟨"E001", "Bob", "bob@x.com", "Eng"⟩).2.1
      (by decide) (by decide)).1,
   ((createEmployeeApi_spec stAlice ⟨"E002", "Bob", "alice@x.com", "Eng"⟩).2.2.1
      (by decide) (by decide) (by decide)).1,
   ((createEmployeeApi_spec stAlice ⟨"E002", "Bob", "bob@x.com", "Eng"⟩).2.2.2
      (by decide) (by decide) (by decide)).1⟩

/-- Claim C4: deleting an absent employee_id fails with NotFound and leaves
the store unchanged; deleting a present one (in a duplicate-free roster,
with the employee_id non-empty as the schema guarantees for every stored
row) succeeds, removes that employee and every attendance record bearing
its employee_id, and a subsequent attendance list filtered by that
employee_id returns the empty sequence. -/
theorem delete_employee_cascade (st : Store) (k : String)
    (hu : EmployeeIdsUnique st) (hk : k ≠ "") :
    (st.employees.any (fun x => x.employee_id == k) = false →
      errKind (delete_employee st k).1 = some .notFound ∧ (delete_employee st k).2 = st) ∧
    (st.employees.any (fun x => x.employee_id == k) = true →
      (delete_employee st k).1 = .ok () ∧
      errKind (get_employee (delete_employee st k).2 k) = some .notFound ∧
      (delete_employee st k).2.attendance =
        st.attendance.filter (fun a => !(a.employee_id == k)) ∧
      list_attendance (delete_employee st k).2 none (some k) = []) := by
  constructor
  · intro hno
    have hfind : st.employees.find? (fun x => x.employee_id == k) = none :=
      find?_of_forall_ne _ _ (forall_false_of_any_eq_false hno)
    constructor
    · simp [delete_employee, hfind, errKind, ApiError.kind]
    · simp [delete_employee, hfind]
  · intro hyes
    obtain ⟨e1, hmem, he1⟩ := List.any_eq_true.mp hyes
    have hsome : (st.employees.find? (fun x => x.employee_id == k)).isSome = true :=
      List.find?_isSome.mpr ⟨e1, hmem, he1⟩
    cases hf : st.employees.find? (fun x => x.employee_id == k) with
    | none => rw [hf] at hsome; simp at hsome
    | some e0 =>
      refine ⟨by simp [delete_employee, hf], ?_, by simp [delete_employee, hf], ?_⟩
      · have : (delete_employee st k).2.employees =
            st.employees.eraseP (fun x => x.employee_id == k) := by
          simp [delete_employee, hf]
        unfold get_employee
        rw [this, find?_eraseP_none st.employees k hu]
        rfl
      · have hemptyk : k.isEmpty = false := by
          rw [← Bool.not_eq_true, String.isEmpty_iff]
          exact hk
        have hatt : (delete_employee st k).2.attendance =
            st.attendance.filter (fun a => !(a.employee_id == k)) := by
          simp [delete_employee, hf]
        unfold list_attendance
        rw [hatt]
        simp only [hemptyk, Bool.false_eq_true, if_false]
        rw [List.filter_filter]
        simp [orderByDateDesc]

/-- Witness for C4: both branches at concrete inputs. -/
theorem delete_employee_cascade_witness :
    errKind (delete_employee stAlice "E999").1 = some .notFound ∧
    (delete_employee stAliceAtt "E001").1 = .ok () ∧
    list_attendance (delete_employee stAliceAtt "E001").2 none (some "E001") = [] := by
  refine ⟨((delete_employee_cascade stAlice "E999" ?_ ?_).1 (by decide)).1, ?_, ?_⟩
  · decide
  · decide
  · exact ((delete_employee_cascade stAliceAtt "E001" (by decide) (by decide)).2 (by decide)).1
  · exact ((delete_employee_cascade stAliceAtt "E001" (by decide) (by decide)).2 (by decide)).2.2.2

/-- Claim C5: in every store state reachable from a fresh database by any
sequence of the exposed mutating operations, no two employees share an
employee_id or an email, no two attendance records share the same
(employee_id, date) pair, and every attendance record's employee_id
references an existing employee. -/
theorem reachable_states_invariant (ops : List Op) : Invariant (runOps ops) :=
  foldl_applyOp_invariant ops emptyStore (by decide)

/-- Claim C6: the summary fails with NotFound when the employee is absent;
otherwise it returns exactly the count of that employee's records with
is_present true as total_present_days and with is_present false as
total_absent_days, the two counts sum to the employee's total record
count, and an employee with zero records gets the counts 0 and 0. -/
theorem get_attendance_summary_counts (st : Store) (k : String) :
    (st.employees.any (fun x => x.employee_id == k) = false →
      errKind (get_attendance_summary st k) = some .notFound) ∧
    (∀ e0, st.employees.find? (fun x => x.employee_id == k) = some e0 →
      get_attendance_summary st k = .ok
        ⟨e0.employee_id, e0.full_name,
         st.attendance.countP (fun a => a.employee_id == k && a.is_present),
         st.attendance.countP (fun a => a.employee_id == k && !a.is_present)⟩ ∧
      st.attendance.countP (fun a => a.employee_id == k && a.is_present) +
        st.attendance.countP (fun a => a.employee_id == k && !a.is_present) =
        st.attendance.countP (fun a => a.employee_id == k) ∧
      (st.attendance.countP (fun a => a.employee_id == k) = 0 →
        st.attendance.countP (fun a => a.employee_id == k && a.is_present) = 0 ∧
        st.attendance.countP (fun a => a.employee_id == k && !a.is_present) = 0)) := by
  constructor
  · intro hno
    have hfind : st.employees.find? (fun x => x.employee_id == k) = none :=
      find?_of_forall_ne _ _ (forall_false_of_any_eq_false hno)
    simp [get_attendance_summary, hfind, errKind, ApiError.kind]
  · intro e0 hf
    have hP : st.attendance.countP (fun a => a.employee_id == k && a.is_present == true) =
        st.attendance.countP (fun a => a.employee_id == k && a.is_present) :=
      List.countP_congr (fun x _ => by cases x.is_present <;> simp)
    have hA : st.attendance.countP (fun a => a.employee_id == k && a.is_present == false) =
        st.attendance.countP (fun a => a.employee_id == k && !a.is_present) :=
      List.countP_congr (fun x _ => by cases x.is_present <;> simp)
    have hsum := countP_and_split (fun a => a.employee_id == k)
      (fun a => a.is_present) st.attendance
    refine ⟨?_, hsum, fun hzero => by omega⟩
    unfold get_attendance_summary
    rw [hf, hP, hA]

/-- Witness for C6: the NotFound branch and the counting branch at
concrete inputs. -/
theorem get_attendance_summary_counts_witness :
    errKind (get_attendance_summary stAlice "E999") = some .notFound ∧
    get_attendance_summary stAliceAtt "E001" = .ok
      ⟨empAlice.employee_id, empAlice.full_name,
       stAliceAtt.attendance.countP (fun a => a.employee_id == "E001" && a.is_present),
       stAliceAtt.attendance.countP (fun a => a.employee_id == "E001" && !a.is_present)⟩ :=
  ⟨(get_attendance_summary_counts stAlice "E999").1 (by decide),
   ((get_attendance_summary_counts stAliceAtt "E001").2 empAlice (by decide)).1⟩

/-- Claim C7: listing one employee's attendance fails with NotFound when
the employee is absent; otherwise it returns exactly that employee's
records, keeping a record under a supplied start bound only if its date is
at least the bound and under a supplied end bound only if its date is at
most the bound (each bound independent, both inclusive), in descending
order of date. -/
theorem get_employee_attendance_spec (st : Store) (k : String) (sd ed : Option Nat) :
    (st.employees.any (fun x => x.employee_id == k) = false →
      errKind (get_employee_attendance st k sd ed) = some .notFound) ∧
    (st.employees.any (fun x => x.employee_id == k) = true →
      ∃ out, get_employee_attendance st k sd ed = .ok out ∧
        out.Perm ((st.attendance.filter
          (fun a => a.employee_id == k && withinBounds sd ed a.date)).map toResponse) ∧
        List.Sorted respDateDesc out) := by
  constructor
  · intro hno
    have hfind : st.employees.find? (fun x => x.employee_id == k) = none :=
      find?_of_forall_ne _ _ (forall_false_of_any_eq_false hno)
    simp [get_employee_attendance, hfind, errKind, ApiError.kind]
  · intro hyes
    obtain ⟨e1, hmem, he1⟩ := List.any_eq_true.mp hyes
    have hsome : (st.employees.find? (fun x => x.employee_id == k)).isSome = true :=
      List.find?_isSome.mpr ⟨e1, hmem, he1⟩
    have hnone : (st.employees.find? (fun x => x.employee_id == k)).isNone = false := by
      cases hf : st.employees.find? (fun x => x.employee_id == k) with
      | none => rw [hf] at hsome; simp at hsome
      | some v => rfl
    unfold get_employee_attendance
    rw [hnone]
    simp only [Bool.false_eq_true, if_false]
    cases sd with
    | none =>
      cases ed with
      | none =>
        refine ⟨_, rfl, ?_, orderBy_map_sorted _⟩
        have hq : st.attendance.filter (fun a => a.employee_id == k) =
            st.attendance.filter (fun a => a.employee_id == k && withinBounds none none a.date) :=
          List.filter_congr (fun a _ => by simp [withinBounds])
        rw [← hq]
        exact orderBy_map_perm _
      | some e2 =>
        refine ⟨_, rfl, ?_, orderBy_map_sorted _⟩
        have hq : (st.attendance.filter (fun a => a.employee_id == k)).filter
              (fun a => decide (a.date ≤ e2)) =
            st.attendance.filter
              (fun a => a.employee_id == k && withinBounds none (some e2) a.date) := by
          rw [List.filter_filter]
          refine List.filter_congr (fun a _ => ?_)
          cases h1 : (a.employee_id == k) <;> cases h2 : decide (a.date ≤ e2) <;>
            simp [withinBounds, h1, h2]
        rw [← hq]
        exact orderBy_map_perm _
    | some s =>
      cases ed with
      | none =>
        refine ⟨_, rfl, ?_, orderBy_map_sorted _⟩
        have hq : (st.attendance.filter (fun a => a.employee_id == k)).filter
              (fun a => decide (s ≤ a.date)) =
            st.attendance.filter
              (fun a => a.employee_id == k && withinBounds (some s) none a.date) := by
          rw [List.filter_filter]
          refine List.filter_congr (fun a _ => ?_)
          cases h1 : (a.employee_id == k) <;> cases h2 : decide (s ≤ a.date) <;>
            simp [withinBounds, h1, h2]
        rw [← hq]
        exact orderBy_map_perm _
      | some e2 =>
        refine ⟨_, rfl, ?_, orderBy_map_sorted _⟩
        have hq : ((st.attendance.filter (fun a => a.employee_id == k)).filter
              (fun a => decide (s ≤ a.date))).filter (fun a => decide (a.date ≤ e2)) =
            st.attendance.filter
              (fun a => a.employee_id == k && withinBounds (some s) (some e2) a.date) := by
          rw [List.filter_filter, List.filter_filter]
          refine List.filter_congr (fun a _ => ?_)
          cases h1 : (a.employee_id == k) <;> cases h2 : decide (s ≤ a.date) <;>
            cases h3 : decide (a.date ≤ e2) <;> simp [withinBounds, h1, h2, h3]
        rw [← hq]
        exact orderBy_map_perm _

/-- Witness for C7: both branches at concrete inputs. -/
theorem get_employee_attendance_spec_witness :
    errKind (get_employee_attendance stAlice "E999" none none) = some .notFound ∧
    (∃ out, get_employee_attendance stAliceAtt "E001" (some 1) (some 9) = .ok out ∧
      out.Perm ((stAliceAtt.attendance.filter
        (fun a => a.employee_id == "E001" && withinBounds (some 1) (some 9) a.date)).map
        toResponse) ∧
      List.Sorted respDateDesc out) :=
  ⟨(get_employee_attendance_spec stAlice "E999" none none).1 (by decide),
   (get_employee_attendance_spec stAliceAtt "E001" (some 1) (some 9)).2 (by decide)⟩

/-- Counterexample to C8 as stated: when the supplied employee_id filter is
the empty string, the handler's Python truthiness test skips the filter and
returns every record, while exact-match semantics would return none. -/
theorem list_attendance_empty_filter_ignored :
    listAttendanceSpec stAliceAtt none (some "") = [] ∧
    list_attendance stAliceAtt none (some "") = [⟨1, "E001", 5, true⟩] := by
  decide

/-- Claim C8 as amended: for every attendance list request whose supplied
employee_id filter (if any) is non-empty, the result is exactly the records
matching every supplied filter (exact-match date AND exact-match
employee_id, each independently optional), in descending order of date,
with no existence check on the employee_id; an empty-string employee_id
filter is treated as not supplied (Python truthiness). -/
theorem list_attendance_matches_filters (st : Store) (d : Option Nat) (k : Option String)
    (hk : ∀ s, k = some s → s ≠ "") :
    (list_attendance st d k).Perm ((listAttendanceSpec st d k).map toResponse) ∧
    List.Sorted respDateDesc (list_attendance st d k) := by
  unfold list_attendance listAttendanceSpec
  cases d with
  | none =>
    cases k with
    | none =>
      refine ⟨?_, orderBy_map_sorted _⟩
      have hq : st.attendance =
          st.attendance.filter (fun a => (Option.all (fun d2 => a.date == d2) none) &&
            (Option.all (fun e2 => a.employee_id == e2) none)) := by
        simp
      rw [← hq]
      exact orderBy_map_perm _
    | some s =>
      have hke : s.isEmpty = false := by
        rw [← Bool.not_eq_true, String.isEmpty_iff]
        exact hk s rfl
      simp only [hke, Bool.false_eq_true, if_false]
      refine ⟨?_, orderBy_map_sorted _⟩
      have hq : st.attendance.filter (fun a => a.employee_id == s) =
          st.attendance.filter (fun a => (Option.all (fun d2 => a.date == d2) none) &&
            (Option.all (fun e2 => a.employee_id == e2) (some s))) := by
        refine List.filter_congr (fun a _ => ?_)
        simp [Option.all]
      rw [← hq]
      exact orderBy_map_perm _
  | some d2 =>
    cases k with
    | none =>
      refine ⟨?_, orderBy_map_sorted _⟩
      have hq : st.attendance.filter (fun a => a.date == d2) =
          st.attendance.filter (fun a => (Option.all (fun x => a.date == x) (some d2)) &&
            (Option.all (fun e2 => a.employee_id == e2) none)) := by
        refine List.filter_congr (fun a _ => ?_)
        simp [Option.all]
      rw [← hq]
      exact orderBy_map_perm _
    | some s =>
      have hke : s.isEmpty = false := by
        rw [← Bool.not_eq_true, String.isEmpty_iff]
        exact hk s rfl
      simp only [hke, Bool.false_eq_true, if_false]
      refine ⟨?_, orderBy_map_sorted _⟩
      have hq : (st.attendance.filter (fun a => a.date == d2)).filter
            (fun a => a.employee_id == s) =
          st.attendance.filter (fun a => (Option.all (fun x => a.date == x) (some d2)) &&
            (Option.all (fun e2 => a.employee_id == e2) (some s))) := by
        rw [List.filter_filter]
        refine List.filter_congr (fun a _ => ?_)
        cases h1 : (a.date == d2) <;> cases h2 : (a.employee_id == s) <;>
          simp [Option.all, h1, h2]
      rw [← hq]
      exact orderBy_map_perm _

/-- Witness for the amended C8 at a concrete input. -/
theorem list_attendance_matches_filters_witness :
    (list_attendance stAliceAtt none (some "E001")).Perm
      ((listAttendanceSpec stAliceAtt none (some "E001")).map toResponse) ∧
    List.Sorted respDateDesc (list_attendance stAliceAtt none (some "E001")) :=
  list_attendance_matches_filters stAliceAtt none (some "E001")
    (fun s hs => by cases hs; decide)

/-- Claim C9: every failing mutating operation leaves the store unchanged —
in the race model the commit-time store is returned untouched on every
error path (rollback), under sequential execution all three mutating
endpoints return the input store on any error, and markAttendance for a
non-existent employee_id yields NotFound and persists nothing. -/
theorem failed_requests_leave_store_unchanged (stq stc st : Store) (e : EmployeeCreate)
    (a : AttendanceCreate) (k : String) :
    (∀ err st2, create_employee stq stc e = (.error err, st2) → st2 = stc) ∧
    (∀ err st2, mark_attendance stq stc a = (.error err, st2) → st2 = stc) ∧
    (∀ err st2, createEmployeeApi st e = (.error err, st2) → st2 = st) ∧
    (∀ err st2, markAttendanceApi st a = (.error err, st2) → st2 = st) ∧
    (∀ err st2, delete_employee st k = (.error err, st2) → st2 = st) ∧
    (st.employees.any (fun x => x.employee_id == a.employee_id) = false →
      errKind (markAttendance st a).1 = some .notFound ∧ (markAttendance st a).2 = st) := by
  refine ⟨?_, ?_, ?_, ?_, ?_, ?_⟩
  · intro err st2 h
    unfold create_employee at h
    split at h
    · simp only [Prod.mk.injEq] at h; exact h.2.symm
    · split at h
      · simp only [Prod.mk.injEq] at h; exact h.2.symm
      · split at h
        · simp only [Prod.mk.injEq] at h; exact h.2.symm
        · simp at h
  · intro err st2 h
    unfold mark_attendance at h
    split at h
    · simp only [Prod.mk.injEq] at h; exact h.2.symm
    · split at h
      · simp only [Prod.mk.injEq] at h; exact h.2.symm
      · split at h
        · simp only [Prod.mk.injEq] at h; exact h.2.symm
        · simp at h
  · intro err st2 h
    unfold createEmployeeApi at h
    split at h
    · unfold create_employee at h
      split at h
      · simp only [Prod.mk.injEq] at h; exact h.2.symm
      · split at h
        · simp only [Prod.mk.injEq] at h; exact h.2.symm
        · split at h
          · simp only [Prod.mk.injEq] at h; exact h.2.symm
          · simp at h
    · simp only [Prod.mk.injEq] at h; exact h.2.symm
  · intro err st2 h
    unfold markAttendanceApi at h
    split at h
    · unfold mark_attendance at h
      split at h
      · simp only [Prod.mk.injEq] at h; exact h.2.symm
      · split at h
        · simp only [Prod.mk.injEq] at h; exact h.2.symm
        · split at h
          · simp only [Prod.mk.injEq] at h; exact h.2.symm
          · simp at h
    · simp only [Prod.mk.injEq] at h; exact h.2.symm
  · intro err st2 h
    unfold delete_employee at h
    split at h
    · simp only [Prod.mk.injEq] at h; exact h.2.symm
    · simp at h
  · intro hno
    have hfind : st.employees.find? (fun x => x.employee_id == a.employee_id) = none := by
      rw [List.find?_eq_none]
      intro x hx hpx
      have hany : st.employees.any (fun x => x.employee_id == a.employee_id) = true :=
        List.any_eq_true.mpr ⟨x, hx, hpx⟩
      rw [hno] at hany
      exact Bool.false_ne_true hany
    constructor
    · simp [markAttendance, mark_attendance, hfind, errKind, ApiError.kind]
    · simp [markAttendance, mark_attendance, hfind]

/-- Witness for C9: a failing (duplicate) mark leaves the store as it was. -/
theorem failed_requests_leave_store_unchanged_witness :
    (mark_attendance stAliceAtt stAliceAtt ⟨"E001", 5, false⟩).2 = stAliceAtt :=
  (failed_requests_leave_store_unchanged stAliceAtt stAliceAtt stAliceAtt reqBob
    ⟨"E001", 5, false⟩ "E001").2.1
    (.conflict "Attendance for employee E001 on that date already exists")
    (mark_attendance stAliceAtt stAliceAtt ⟨"E001", 5, false⟩).2 (by decide)

/-- Claim C10: every successful markAttendance appends exactly one
attendance record to the store, leaves the roster and every pre-existing
attendance record unchanged, and the returned record's employee_id, date
and is_present equal those of the request. -/
theorem markAttendance_success_frame (st st2 : Store) (a : AttendanceCreate)
    (r : AttendanceResponse) (h : markAttendance st a = (.ok r, st2)) :
    st2.employees = st.employees ∧
    st2.attendance =
      st.attendance ++ [⟨st.nextAttendanceId, a.employee_id, a.date, a.is_present⟩] ∧
    st2.attendance.length = st.attendance.length + 1 ∧
    r.employee_id = a.employee_id ∧ r.date = a.date ∧ r.is_present = a.is_present := by
  unfold markAttendance mark_attendance at h
  split at h
  · simp at h
  · split at h
    · simp at h
    · split at h
      · simp at h
      · simp only [Prod.mk.injEq, Except.ok.injEq] at h
        obtain ⟨hr, hst⟩ := h
        subst hst
        subst hr
        refine ⟨rfl, by simp, by simp, rfl, rfl, rfl⟩

/-- Witness for C10 at a concrete input. -/
theorem markAttendance_success_frame_witness :
    (⟨[empAlice], [⟨1, "E001", 5, true⟩], 2, 2⟩ : Store).attendance =
      stAlice.attendance ++ [⟨stAlice.nextAttendanceId, "E001", 5, true⟩] :=
  (markAttendance_success_frame stAlice ⟨[empAlice], [⟨1, "E001", 5, true⟩], 2, 2⟩
    ⟨"E001", 5, true⟩ ⟨1, "E001", 5, true⟩ (by decide)).2.1
